import Mathlib

/-!
Verification development for the NAS_assessment record store
(`src/NAS_assessment.py`).

The storage core is shallowly embedded: the filesystem is a finite map
from path to file contents, Python file contents are modelled at the
granularity the source manipulates them (CSV files as the list of rows
handed to `csv.writer` / produced by `csv.reader`, JSON files as the
record array stored under the single `records` key; the Python `csv` and
`json` libraries quote and escape correctly at the text level, so the
row/document granularity is faithful for the values the source reads and
writes).  Python exceptions are modelled with `Except`.  Records follow
the data model of the source's `Record.categories`: exactly the fields
`name`, `address`, `phone number`, in that order.
-/

/-- A stored record: the fixed field set of `Record.categories`
(`name`, `address`, `phone number`), each a string, in that order. -/
structure Record where
  name : String
  address : String
  phoneNumber : String
deriving DecidableEq, Repr

/-- `Record.categories` from the source: the fixed field-name list, also
used as the CSV header row. -/
def categories : List String := ["name", "address", "phone number"]

/-- `record.values()` — the record's field values in field order. -/
def Record.values (r : Record) : List String := [r.name, r.address, r.phoneNumber]

/-- The field selector passed to `Database.filter` (`valueSelected`),
restricted — as the command interface does — to the category names. -/
inductive FieldName where
  | name
  | address
  | phoneNumber
deriving DecidableEq, Repr

/-- `entry[valueSelected]`: the selected field's value. -/
def Record.get (r : Record) : FieldName → String
  | .name => r.name
  | .address => r.address
  | .phoneNumber => r.phoneNumber

/-- Python exceptions that the source can raise, plus `unmodeled` for
file contents outside the row/document granularity of this embedding
(partial CSV records, text of one format read as another). -/
inductive Err where
  | typeError
  | indexError
  | keyError
  | stopIteration
  | jsonDecode
  | unmodeled
deriving DecidableEq, Repr

/-- On-disk contents of one file.  `csvData rows` is a CSV file as its
row list (header row included); `jsonData recs` is a JSON file
`\x7b"records": [...]\x7d`; `mixed` is a file holding text of more than one
format (CSV rows appended after a JSON document). -/
inductive FileData where
  | csvData (rows : List (List String))
  | jsonData (recs : List Record)
  | mixed
deriving DecidableEq, Repr

/-- The filesystem: an association list from path to contents. -/
def FS := List (String × FileData)
deriving DecidableEq

/-- `os.path.isfile` / reading: first binding of the path, if any. -/
def lookupFile (p : String) : FS → Option FileData
  | [] => none
  | (q, d) :: fs => if q = p then some d else lookupFile p fs

/-- `os.remove`: drop every binding of the path. -/
def removeFile (p : String) : FS → FS
  | [] => []
  | (q, d) :: fs => if q = p then removeFile p fs else (q, d) :: removeFile p fs

/-- Writing a file: bind the path to the new contents. -/
def setFile (p : String) (d : FileData) (fs : FS) : FS :=
  (p, d) :: removeFile p fs

/-- `CSVFormat.write`: open in append mode (creating the file), write the
header row first when the file did not exist, then the record's values as
a row.  Appending CSV text to a non-CSV file leaves mixed contents. -/
def csvWrite (r : Record) (p : String) (fs : FS) : FS × Bool :=
  match lookupFile p fs with
  | none => (setFile p (.csvData [categories, r.values]) fs, true)
  | some (.csvData rows) => (setFile p (.csvData (rows ++ [r.values])) fs, true)
  | some _ => (setFile p .mixed fs, true)

/-- One CSV data row mapped positionally back onto `Record.categories`
(`record[Record.categories[index]] = value`).  A row longer than the
category list raises `IndexError` in the source; a shorter row builds a
record outside the fixed-field data model and is out of this embedding's
granularity. -/
def rowToRecord (row : List String) : Except Err Record :=
  match row with
  | [n, a, p] => .ok ⟨n, a, p⟩
  | row => if row.length > 3 then .error .indexError else .error .unmodeled

/-- All data rows of a CSV file parsed in order. -/
def parseRows : List (List String) → Except Err (List Record)
  | [] => .ok []
  | row :: rest => do
      let r ← rowToRecord row
      let rs ← parseRows rest
      .ok (r :: rs)

/-- `CSVFormat.getRecords`: empty list when the file is absent; otherwise
`next(reader)` skips the header (raising `StopIteration` when the file is
empty) and the remaining rows are mapped onto the categories. -/
def csvGetRecords (p : String) (fs : FS) : Except Err (List Record) :=
  match lookupFile p fs with
  | none => .ok []
  | some (.csvData []) => .error .stopIteration
  | some (.csvData (_ :: rest)) => parseRows rest
  | some _ => .error .unmodeled

/-- `JSONFormat.write`: create `\x7b"records": []\x7d` when the file is
absent, then load the document, append the record to the array, and
rewrite the document (the rewritten text is strictly longer, so the
seek-without-truncate rewrite fully overwrites).  `json.load` on non-JSON
text raises `JSONDecodeError`. -/
def jsonWrite (r : Record) (p : String) (fs : FS) : Except Err (FS × Bool) :=
  match lookupFile p fs with
  | none => .ok (setFile p (.jsonData [r]) fs, true)
  | some (.jsonData recs) => .ok (setFile p (.jsonData (recs ++ [r])) fs, true)
  | some _ => .error .jsonDecode

/-- `JSONFormat.getRecords`: empty list when absent, otherwise the array
under the document's single key. -/
def jsonGetRecords (p : String) (fs : FS) : Except Err (List Record) :=
  match lookupFile p fs with
  | none => .ok []
  | some (.jsonData recs) => .ok recs
  | some _ => .error .jsonDecode

/-- `format in self.formats.keys()`: the registry built by
`__configFormats` holds exactly `csv` and `json`. -/
def isFormat (s : String) : Bool := s = "csv" || s = "json"

/-- `self.formats[fmt].write(...)`: dispatch through the registry;
an unregistered name raises `KeyError`. -/
def formatWrite (fmt : String) (r : Record) (p : String) (fs : FS) :
    Except Err (FS × Bool) :=
  if fmt = "csv" then .ok (csvWrite r p fs)
  else if fmt = "json" then jsonWrite r p fs
  else .error .keyError

/-- `self.formats[fmt].getRecords(...)`: dispatch through the registry;
an unregistered name raises `KeyError`. -/
def formatGetRecords (fmt : String) (p : String) (fs : FS) :
    Except Err (List Record) :=
  if fmt = "csv" then csvGetRecords p fs
  else if fmt = "json" then jsonGetRecords p fs
  else .error .keyError

/-- Decidable equality of results, so outcomes of concrete runs can be
checked by `decide`. -/
instance {ε α : Type} [DecidableEq ε] [DecidableEq α] : DecidableEq (Except ε α) := fun x y =>
  match x, y with
  | .ok a, .ok b =>
    if h : a = b then .isTrue (by rw [h]) else .isFalse (by intro hc; cases hc; exact h rfl)
  | .error a, .error b =>
    if h : a = b then .isTrue (by rw [h]) else .isFalse (by intro hc; cases hc; exact h rfl)
  | .ok _, .error _ => .isFalse (by intro hc; cases hc)
  | .error _, .ok _ => .isFalse (by intro hc; cases hc)

/-- Closing bracket scan of `fnmatch.translate`: split the tail of a
bracket expression at the first `]`, giving the class body and the rest
of the pattern; `none` when the bracket is never closed. -/
def findClose : List Char → Option (List Char × List Char)
  | [] => none
  | c :: t =>
    if c = ']' then some ([], t)
    else (findClose t).map (fun pr => (c :: pr.1, pr.2))

/-- Bracket-expression parse of `fnmatch.translate`: an optional leading
`!` negates; a `]` right after it is a literal member; the body runs to
the next `]`.  Returns (negated, body, rest of pattern). -/
def parseClass (ps : List Char) : Option (Bool × List Char × List Char) :=
  match ps with
  | '!' :: ']' :: t => (findClose t).map (fun pr => (true, ']' :: pr.1, pr.2))
  | '!' :: t => (findClose t).map (fun pr => (true, pr.1, pr.2))
  | ']' :: t => (findClose t).map (fun pr => (false, ']' :: pr.1, pr.2))
  | t => (findClose t).map (fun pr => (false, pr.1, pr.2))

/-- Membership of one character in a bracket-expression body:
`a-b` spans the code-point range, anything else is literal. -/
def matchBody (body : List Char) (c : Char) : Bool :=
  match body with
  | [] => false
  | a :: '-' :: b :: rest => (a ≤ c && c ≤ b) || matchBody rest c
  | a :: rest => (a = c) || matchBody rest c

/-- `fnmatch.fnmatch(s, pattern)` (case-sensitive, as on POSIX): `*`
matches any run, `?` any single character, a closed bracket expression
one character of its class, an unclosed `[` is literal; the whole string
must match.  The fuel argument starts at `p.length + s.length + 1` and
strictly dominates every recursive call, so it never runs out. -/
def globAux : Nat → List Char → List Char → Bool
  | 0, p, s => p.isEmpty && s.isEmpty
  | fuel + 1, p, s =>
    match p, s with
    | [], s => s.isEmpty
    | '*' :: ps, s =>
      globAux fuel ps s ||
        (match s with
         | [] => false
         | _ :: s2 => globAux fuel ('*' :: ps) s2)
    | '?' :: ps, _ :: s2 => globAux fuel ps s2
    | '?' :: _, [] => false
    | '[' :: ps, s =>
      match parseClass ps with
      | none =>
        match s with
        | [] => false
        | c :: s2 => (c = '[') && globAux fuel ps s2
      | some (neg, body, rest) =>
        match s with
        | [] => false
        | c :: s2 =>
          (if neg then !(matchBody body c) else matchBody body c)
            && globAux fuel rest s2
    | _ :: _, [] => false
    | pc :: ps, c :: s2 => (pc = c) && globAux fuel ps s2

/-- Whole-string glob match of `s` against `pattern`. -/
def globMatch (pattern s : List Char) : Bool :=
  globAux (pattern.length + s.length + 1) pattern s

/-- Python `str.strip()`: drop leading and trailing whitespace. -/
def trimChars (s : List Char) : List Char :=
  ((s.dropWhile Char.isWhitespace).reverse.dropWhile Char.isWhitespace).reverse

/-- Python `str.split('.')`: split at every dot, keeping empty pieces. -/
def splitDots : List Char → List (List Char)
  | [] => [[]]
  | c :: t =>
    if c = '.' then [] :: splitDots t
    else
      match splitDots t with
      | [] => [[c]]
      | h :: r => (c :: h) :: r

/-- The `Database` state: `fileName` and `currentFormat` as given, and the
separately stored `dataFile` attribute. -/
structure Database where
  fileName : String
  currentFormat : String
  dataFile : String
deriving DecidableEq, Repr

/-- `Database.__init__`: record the name and format (an unsupported format
only prints a warning) and set `dataFile = f"{fileName}.{currentFormat}"`. -/
def Database.init (fileName fileFormat : String) : Database :=
  ⟨fileName, fileFormat, fileName ++ "." ++ fileFormat⟩

/-- `Database.add`: write the record via the current format into the
current data file. -/
def Database.add (db : Database) (r : Record) (fs : FS) : Except Err (FS × Bool) :=
  formatWrite db.currentFormat r db.dataFile fs

/-- `Database.getRecords`: read the current data file via the current
format. -/
def Database.getRecords (db : Database) (fs : FS) : Except Err (List Record) :=
  formatGetRecords db.currentFormat db.dataFile fs

/-- The per-record write loop of `importRecords`
(`self.formats[self.currentFormat].write(record, self.dataFile)`),
ignoring each write's boolean result as the source does. -/
def writeAll (db : Database) : List Record → FS → Except Err FS
  | [], fs => .ok fs
  | r :: rs, fs => do
      let (fs1, _) ← formatWrite db.currentFormat r db.dataFile fs
      writeAll db rs fs1

/-- `Database.importRecords`: take `fName.strip().split('.')[1]` as the
source format name (IndexError when there is no second piece); when it is
registered, read the source with it and write every record into the
current data file, reporting success; otherwise report failure. -/
def Database.importRecords (db : Database) (fName : String) (fs : FS) :
    Except Err (FS × Bool) :=
  match (splitDots (trimChars fName.data)).get? 1 with
  | none => .error .indexError
  | some fmtChars =>
    let fmt := String.mk fmtChars
    if isFormat fmt then do
      let records ← formatGetRecords fmt fName fs
      let fs2 ← writeAll db records fs
      .ok (fs2, true)
    else .ok (fs, false)

/-- `Database.convert`: no-op success on the current format; when no data
file exists just switch `currentFormat` (leaving `dataFile` as it was);
otherwise, for a registered target, read the records, delete any stale
target file, run the write loop — whose body `self.add(record, newFormat)`
passes two arguments to the one-record `add` and so raises `TypeError` as
soon as there is a record — then verify the new file by reading it back,
committing (delete old file, switch format and data file) on a match and
rolling back (delete new file) otherwise. -/
def Database.convert (db : Database) (newFormat : String) (fs : FS) :
    Except Err (Bool × Database × FS) :=
  if newFormat = db.currentFormat then .ok (true, db, fs)
  else if (lookupFile db.dataFile fs).isNone then
    .ok (true, { db with currentFormat := newFormat }, fs)
  else if isFormat newFormat then do
    let records ← formatGetRecords db.currentFormat db.dataFile fs
    let newFile := db.fileName ++ "." ++ newFormat
    let fs1 := if (lookupFile newFile fs).isSome then removeFile newFile fs else fs
    match records with
    | _ :: _ => .error .typeError
    | [] => do
      let readBack ← formatGetRecords newFormat newFile fs1
      if readBack = records then
        .ok (true, ⟨db.fileName, newFormat, newFile⟩, removeFile db.dataFile fs1)
      else
        .ok (false, db, removeFile newFile fs1)
  else .ok (false, db, fs)

/-- `Database.clean`: delete the current data file when present. -/
def Database.clean (db : Database) (fs : FS) : FS :=
  if (lookupFile db.dataFile fs).isSome then removeFile db.dataFile fs else fs

/-- The record-selection loop of `Database.filter`: a glob match appends
the entry once; otherwise, when the pattern contains a comma, the entry
is appended once for every character of the pattern equal to its field
value. -/
def filterRecords (field : FieldName) (pat : String) : List Record → List Record
  | [] => []
  | e :: rest =>
    (if globMatch pat.data (e.get field).data then [e]
     else if ',' ∈ pat.data then
       (pat.data.filter (fun c => e.get field = String.mk [c])).map (fun _ => e)
     else []) ++ filterRecords field pat rest

/-- `Database.filter`: run the selection loop over `getRecords`. -/
def Database.filter (db : Database) (field : FieldName) (pat : String) (fs : FS) :
    Except Err (List Record) := do
  let recs ← db.getRecords fs
  .ok (filterRecords field pat recs)

/-- The test-suite record of `T0_test_add_and_getRecords`. -/
def johnDoe : Record := ⟨"John Doe", "123 Street street", "555-5555"⟩

/-- The second test-suite record. -/
def georgeCarlin : Record := ⟨"George Carlin", "123 Street street", "555-5555"⟩

/-- A record whose name is the single character `a`. -/
def singleA : Record := ⟨"a", "x", "y"⟩

/-- A record whose name is the comma-carrying glob pattern `[ab],b`. -/
def bracketComma : Record := ⟨"[ab],b", "x", "y"⟩

/-- The dataFile invariant stated by the spec: the data-file path is the
base name, a dot, and the current format. -/
def dbInvariant (db : Database) : Prop :=
  db.dataFile = db.fileName ++ "." ++ db.currentFormat

/-- The claim's experiment for append monotonicity: a sequence of `add`
calls, collecting the final filesystem and the conjunction of the
success flags. -/
def addAll (db : Database) : List Record → FS → Except Err (FS × Bool)
  | [], fs => .ok (fs, true)
  | r :: rs, fs => do
      let (fs1, b) ← db.add r fs
      let (fs2, b2) ← addAll db rs fs1
      .ok (fs2, b && b2)

/-- C9: converting to the already-current format reports success and
leaves the Database state and the whole filesystem (hence the data file,
its contents and the data-file path) unchanged. -/
theorem convert_same_format_noop (db : Database) (fs : FS) :
    Database.convert db db.currentFormat fs = .ok (true, db, fs) := by
  simp [Database.convert]

/-- C1: the conversion protocol crashes on any non-empty dataset — with
one record stored in CSV, `convert` to `json` raises `TypeError`, because
the write loop calls `self.add(record, newFormat)` and `add` accepts only
the record. -/
theorem convert_nonempty_dataset_raises :
    Database.convert (Database.init "d" "csv") "json"
      [("d.csv", .csvData [categories, johnDoe.values])] = .error .typeError := by
  decide

/-- C2: core operations do raise uncaught exceptions — `convert` of a
one-record JSON dataset to `csv` raises `TypeError`, and `importRecords`
of a dotless path raises `IndexError` from `fName.strip().split('.')[1]`. -/
theorem core_operations_raise :
    Database.convert (Database.init "e" "json") "csv"
        [("e.json", .jsonData [johnDoe])] = .error .typeError ∧
      Database.importRecords (Database.init "e" "json") "records" [] =
        .error .indexError := by
  decide

/-- C10: `filter` duplicates a record — the name `a` does not glob-match
the pattern `a,a`, the pattern contains a comma, and the character `a`
occurs twice in it, so the single stored record is returned twice. -/
theorem filter_duplicate_inclusion :
    globMatch "a,a".data (singleA.get .name).data = false ∧
      Database.getRecords (Database.init "d10" "csv")
        [("d10.csv", .csvData [categories, singleA.values])] = .ok [singleA] ∧
      Database.filter (Database.init "d10" "csv") .name "a,a"
        [("d10.csv", .csvData [categories, singleA.values])] =
        .ok [singleA, singleA] := by
  decide

/-- C4 counterexample: the stored record's name is exactly the pattern
`[ab],b`, which contains a comma, yet `filter` returns the empty list —
exact equality with the whole pattern does not imply inclusion. -/
theorem filter_comma_equal_pattern_excluded :
    Database.getRecords (Database.init "d4" "csv")
        [("d4.csv", .csvData [categories, bracketComma.values])] =
        .ok [bracketComma] ∧
      bracketComma.get .name = "[ab],b" ∧
      (',' ∈ "[ab],b".data) ∧
      Database.filter (Database.init "d4" "csv") .name "[ab],b"
        [("d4.csv", .csvData [categories, bracketComma.values])] = .ok [] := by
  decide

/-- C5 counterexample: `a.b.csv` has the recognized extension `csv` and
holds a well-formed CSV dataset, yet `importRecords` reports failure and
writes nothing, because the format is taken from the second
dot-separated component `b`. -/
theorem importRecords_known_extension_fails :
    isFormat "csv" = true ∧
      Database.importRecords (Database.init "d5" "csv") "a.b.csv"
        [("a.b.csv", .csvData [categories, johnDoe.values])] =
        .ok ([("a.b.csv", .csvData [categories, johnDoe.values])], false) := by
  decide

/-- C3 counterexample: converting a fresh CSV database with no data file
to `json` succeeds but only updates `currentFormat`, leaving `dataFile`
at `d.csv`, so the recomputation invariant fails afterwards. -/
theorem dataFile_invariant_broken_by_fileless_convert :
    Database.convert (Database.init "d" "csv") "json" [] =
        .ok (true, ⟨"d", "json", "d.csv"⟩, []) ∧
      ¬ dbInvariant ⟨"d", "json", "d.csv"⟩ :=
  ⟨by decide, by unfold dbInvariant; decide⟩

/-- Reading back a path just written returns the written contents. -/
@[simp] lemma lookupFile_setFile_same (p : String) (d : FileData) (fs : FS) :
    lookupFile p (setFile p d fs) = some d := by
  simp [setFile, lookupFile]

/-- Binding an `ok` result continues with its value. -/
@[simp] lemma okBind {ε α β : Type} (a : α) (f : α → Except ε β) :
    ((Except.ok a : Except ε α) >>= f) = f a := rfl

/-- Binding an `error` result propagates the error. -/
@[simp] lemma errBind {ε α β : Type} (e : ε) (f : α → Except ε β) :
    ((Except.error e : Except ε α) >>= f) = .error e := rfl

/-- A record's value row parses back to the record itself. -/
lemma rowToRecord_values (r : Record) : rowToRecord r.values = .ok r := rfl

/-- Value rows of a record list parse back to the list itself. -/
lemma parseRows_map_values (rs : List Record) :
    parseRows (rs.map Record.values) = .ok rs := by
  induction rs with
  | nil => rfl
  | cons r rs ih => simp [parseRows, rowToRecord_values, ih]

/-- Appending records one-by-one to an existing CSV data file appends
their value rows, always reporting success. -/
lemma addAll_csv (db : Database) (hfmt : db.currentFormat = "csv") (rs : List Record) :
    ∀ (rows : List (List String)) (fs : FS),
      lookupFile db.dataFile fs = some (.csvData rows) →
      ∃ fs2, addAll db rs fs = .ok (fs2, true) ∧
        lookupFile db.dataFile fs2 = some (.csvData (rows ++ rs.map Record.values)) := by
  induction rs with
  | nil => exact fun rows fs h => ⟨fs, rfl, by simp [h]⟩
  | cons r rs ih =>
    intro rows fs h
    have hadd : db.add r fs =
        .ok (setFile db.dataFile (.csvData (rows ++ [r.values])) fs, true) := by
      simp [Database.add, formatWrite, hfmt, csvWrite, h]
    obtain ⟨fs2, hrec, hlook⟩ :=
      ih (rows ++ [r.values]) (setFile db.dataFile (.csvData (rows ++ [r.values])) fs)
        (by simp)
    refine ⟨fs2, ?_, ?_⟩
    · simp [addAll, hadd, hrec]
    · rw [hlook]; simp

/-- Appending records one-by-one to an existing JSON data file appends
them to the stored array, always reporting success. -/
lemma addAll_json (db : Database) (hfmt : db.currentFormat = "json") (rs : List Record) :
    ∀ (pre : List Record) (fs : FS),
      lookupFile db.dataFile fs = some (.jsonData pre) →
      ∃ fs2, addAll db rs fs = .ok (fs2, true) ∧
        lookupFile db.dataFile fs2 = some (.jsonData (pre ++ rs)) := by
  induction rs with
  | nil => exact fun pre fs h => ⟨fs, rfl, by simp [h]⟩
  | cons r rs ih =>
    intro pre fs h
    have hadd : db.add r fs =
        .ok (setFile db.dataFile (.jsonData (pre ++ [r])) fs, true) := by
      simp [Database.add, formatWrite, hfmt, jsonWrite, h]
    obtain ⟨fs2, hrec, hlook⟩ :=
      ih (pre ++ [r]) (setFile db.dataFile (.jsonData (pre ++ [r])) fs) (by simp)
    refine ⟨fs2, ?_, ?_⟩
    · simp [addAll, hadd, hrec]
    · rw [hlook]; simp

/-- Starting from no data file, in either supported format, a sequence
of `add` calls succeeds and leaves a state from which `getRecords`
returns exactly the records added, in order. -/
lemma addAll_fresh (db : Database) (rs : List Record) (fs : FS)
    (hfmt : db.currentFormat = "csv" ∨ db.currentFormat = "json")
    (h0 : lookupFile db.dataFile fs = none) :
    ∃ fs2, addAll db rs fs = .ok (fs2, true) ∧
      Database.getRecords db fs2 = .ok rs := by
  rcases hfmt with hfmt | hfmt
  · cases rs with
    | nil =>
      exact ⟨fs, rfl, by simp [Database.getRecords, formatGetRecords, hfmt, csvGetRecords, h0]⟩
    | cons r rs =>
      have hadd : db.add r fs =
          .ok (setFile db.dataFile (.csvData [categories, r.values]) fs, true) := by
        simp [Database.add, formatWrite, hfmt, csvWrite, h0]
      obtain ⟨fs2, hrec, hlook⟩ :=
        addAll_csv db hfmt rs [categories, r.values]
          (setFile db.dataFile (.csvData [categories, r.values]) fs) (by simp)
      refine ⟨fs2, by simp [addAll, hadd, hrec], ?_⟩
      have hlook2 : lookupFile db.dataFile fs2 =
          some (.csvData (categories :: (r :: rs).map Record.values)) := by
        rw [hlook]; simp
      simp [Database.getRecords, formatGetRecords, hfmt, csvGetRecords, hlook2]
      exact parseRows_map_values (r :: rs)
  · cases rs with
    | nil =>
      exact ⟨fs, rfl, by simp [Database.getRecords, formatGetRecords, hfmt, jsonGetRecords, h0]⟩
    | cons r rs =>
      have hadd : db.add r fs =
          .ok (setFile db.dataFile (.jsonData [r]) fs, true) := by
        simp [Database.add, formatWrite, hfmt, jsonWrite, h0]
      obtain ⟨fs2, hrec, hlook⟩ :=
        addAll_json db hfmt rs [r] (setFile db.dataFile (.jsonData [r]) fs) (by simp)
      refine ⟨fs2, by simp [addAll, hadd, hrec], ?_⟩
      simp [Database.getRecords, formatGetRecords, hfmt, jsonGetRecords, hlook]

/-- C6: starting from no data file, in either supported format, `n`
successful `add` calls with distinct records leave a state from which
`getRecords` returns exactly those records in the order added. -/
theorem addAll_getRecords_inorder (db : Database) (rs : List Record) (fs : FS)
    (hfmt : db.currentFormat = "csv" ∨ db.currentFormat = "json")
    (h0 : lookupFile db.dataFile fs = none) (hnd : rs.Nodup) :
    ∃ fs2, addAll db rs fs = .ok (fs2, true) ∧
      Database.getRecords db fs2 = .ok rs :=
  addAll_fresh db rs fs hfmt h0

/-- C6 witness: two distinct records added to a fresh CSV database are
read back in order. -/
theorem addAll_getRecords_inorder_witness :
    ∃ fs2, addAll (Database.init "w6" "csv") [johnDoe, georgeCarlin] [] = .ok (fs2, true) ∧
      Database.getRecords (Database.init "w6" "csv") fs2 = .ok [johnDoe, georgeCarlin] :=
  addAll_getRecords_inorder (Database.init "w6" "csv") [johnDoe, georgeCarlin] []
    (Or.inl rfl) rfl (by decide)

/-- C7: in each supported format, writing a record to an absent file and
reading the file back yields exactly that record (the Python `csv` and
`json` libraries escape every field value correctly, so no unescaped
characters are excluded at this embedding's row/document granularity). -/
theorem format_write_read_roundtrip (fmt p : String) (fs : FS) (r : Record)
    (hf : fmt = "csv" ∨ fmt = "json") (h : lookupFile p fs = none) :
    ∃ fs2, formatWrite fmt r p fs = .ok (fs2, true) ∧
      formatGetRecords fmt p fs2 = .ok [r] := by
  rcases hf with hf | hf <;> subst hf
  · refine ⟨setFile p (.csvData [categories, r.values]) fs, ?_, ?_⟩
    · simp [formatWrite, csvWrite, h]
    · have : parseRows [r.values] = .ok [r] := rfl
      simp [formatGetRecords, csvGetRecords, this]
  · refine ⟨setFile p (.jsonData [r]) fs, ?_, ?_⟩
    · simp [formatWrite, jsonWrite, h]
    · simp [formatGetRecords, jsonGetRecords]

/-- C7 witness: a concrete CSV round-trip of the test record. -/
theorem format_write_read_roundtrip_witness :
    ∃ fs2, formatWrite "csv" johnDoe "w7.csv" [] = .ok (fs2, true) ∧
      formatGetRecords "csv" "w7.csv" fs2 = .ok [johnDoe] :=
  format_write_read_roundtrip "csv" "w7.csv" [] johnDoe (Or.inl rfl) rfl

/-- C8: `getRecords` on a database (in either supported format) whose
data file does not exist returns the empty record list, not an error. -/
theorem getRecords_missing_file_empty (db : Database) (fs : FS)
    (hf : db.currentFormat = "csv" ∨ db.currentFormat = "json")
    (h : lookupFile db.dataFile fs = none) :
    Database.getRecords db fs = .ok [] := by
  rcases hf with hf | hf <;>
    simp [Database.getRecords, formatGetRecords, hf, csvGetRecords, jsonGetRecords, h]

/-- C8 witness: a fresh JSON database with no files reads back empty. -/
theorem getRecords_missing_file_empty_witness :
    Database.getRecords (Database.init "m8" "json") [] = .ok [] :=
  getRecords_missing_file_empty (Database.init "m8" "json") [] (Or.inr rfl) rfl

/-- C3 (amended): the recomputation invariant holds after construction,
and `convert` preserves it in every case except the missing-data-file
branch — i.e. whenever the target equals the current format or the data
file exists.  (`add`, `importRecords`, `getRecords`, `clean` and `filter`
never reassign the identity fields, so they preserve it trivially.) -/
theorem dataFile_invariant_init_and_convert :
    (∀ fn fmt, dbInvariant (Database.init fn fmt)) ∧
    (∀ (db : Database) (nf : String) (fs : FS) (b : Bool) (db2 : Database) (fs2 : FS),
      dbInvariant db →
      (nf = db.currentFormat ∨ (lookupFile db.dataFile fs).isSome = true) →
      Database.convert db nf fs = .ok (b, db2, fs2) → dbInvariant db2) := by
  constructor
  · intro fn fmt; rfl
  · intro db nf fs b db2 fs2 hinv hcase hconv
    unfold Database.convert at hconv
    by_cases h1 : nf = db.currentFormat
    · simp only [if_pos h1, Except.ok.injEq, Prod.mk.injEq] at hconv
      exact hconv.2.1 ▸ hinv
    · have h2 : (lookupFile db.dataFile fs).isSome = true := by
        rcases hcase with hc | hc
        · exact absurd hc h1
        · exact hc
      cases hl : lookupFile db.dataFile fs with
      | none => rw [hl] at h2; simp at h2
      | some d =>
        rw [if_neg h1, hl] at hconv
        simp only [Option.isNone_some, Bool.false_eq_true, if_false] at hconv
        by_cases h4 : isFormat nf = true
        · rw [if_pos h4] at hconv
          cases hr : formatGetRecords db.currentFormat db.dataFile fs with
          | error e => rw [hr] at hconv; simp at hconv
          | ok records =>
            rw [hr] at hconv
            simp only [okBind] at hconv
            cases records with
            | cons r rs => simp at hconv
            | nil =>
              cases hrb : formatGetRecords nf (db.fileName ++ "." ++ nf)
                  (if (lookupFile (db.fileName ++ "." ++ nf) fs).isSome = true
                    then removeFile (db.fileName ++ "." ++ nf) fs else fs) with
              | error e => rw [hrb] at hconv; simp at hconv
              | ok rb =>
                rw [hrb] at hconv
                simp only [okBind] at hconv
                by_cases h5 : rb = ([] : List Record)
                · rw [if_pos h5] at hconv
                  simp only [Except.ok.injEq, Prod.mk.injEq] at hconv
                  rw [← hconv.2.1]
                  rfl
                · rw [if_neg h5] at hconv
                  simp only [Except.ok.injEq, Prod.mk.injEq] at hconv
                  exact hconv.2.1 ▸ hinv
        · rw [if_neg h4] at hconv
          simp only [Except.ok.injEq, Prod.mk.injEq] at hconv
          exact hconv.2.1 ▸ hinv

/-- C3 witness: the invariant after a concrete construction, and after a
concrete successful conversion of an existing (header-only) data file. -/
theorem dataFile_invariant_witness :
    dbInvariant (Database.init "a" "csv") ∧
      dbInvariant (⟨"w3", "json", "w3.json"⟩ : Database) :=
  ⟨dataFile_invariant_init_and_convert.1 "a" "csv",
   dataFile_invariant_init_and_convert.2 ⟨"w3", "csv", "w3.csv"⟩ "json"
     [("w3.csv", .csvData [categories])] true ⟨"w3", "json", "w3.json"⟩ []
     rfl (Or.inr (by decide)) (by decide)⟩

/-- A record all of whose fields hold the single character `x`. -/
def recX : Record := ⟨"x", "x", "x"⟩

/-- Membership in the `filter` selection loop, for a comma-carrying
pattern: an input record appears in the output iff it glob-matches or
its field value equals some single character of the pattern. -/
lemma mem_filterRecords (field : FieldName) (pat : String) (hc : ',' ∈ pat.data)
    (recs : List Record) (r : Record) :
    r ∈ filterRecords field pat recs ↔
      r ∈ recs ∧ (globMatch pat.data (r.get field).data = true ∨
        ∃ c ∈ pat.data, r.get field = String.mk [c]) := by
  induction recs with
  | nil => simp [filterRecords]
  | cons e rest ih =>
    simp only [filterRecords, List.mem_append, ih, List.mem_cons]
    by_cases hg : globMatch pat.data (e.get field).data = true
    · rw [if_pos hg]
      constructor
      · rintro (hh | ⟨hr, hC⟩)
        · rw [List.mem_singleton] at hh
          subst hh
          exact ⟨Or.inl rfl, Or.inl hg⟩
        · exact ⟨Or.inr hr, hC⟩
      · rintro ⟨(rfl | hr), hC⟩
        · exact Or.inl (List.mem_singleton.mpr rfl)
        · exact Or.inr ⟨hr, hC⟩
    · rw [if_neg hg, if_pos hc]
      constructor
      · rintro (hh | ⟨hr, hC⟩)
        · rw [List.mem_map] at hh
          obtain ⟨c, hcf, rfl⟩ := hh
          rw [List.mem_filter] at hcf
          obtain ⟨hcp, hce⟩ := hcf
          exact ⟨Or.inl rfl, Or.inr ⟨c, hcp, of_decide_eq_true hce⟩⟩
        · exact ⟨Or.inr hr, hC⟩
      · rintro ⟨(rfl | hr), hC⟩
        · rcases hC with hC | ⟨c, hcp, hce⟩
          · exact absurd hC hg
          · refine Or.inl ?_
            rw [List.mem_map]
            exact ⟨c, List.mem_filter.mpr ⟨hcp, decide_eq_true hce⟩, rfl⟩
        · exact Or.inr ⟨hr, hC⟩

/-- C4 (amended): for a pattern containing a comma, `filter` returns a
record iff it glob-matches the pattern or its field value equals some
single character occurring in the pattern; exact equality with the whole
pattern string gives no inclusion of its own. -/
theorem filter_comma_membership (db : Database) (field : FieldName) (pat : String)
    (fs : FS) (recs out : List Record)
    (hg : Database.getRecords db fs = .ok recs)
    (hc : ',' ∈ pat.data)
    (hf : Database.filter db field pat fs = .ok out) (r : Record) :
    r ∈ out ↔ r ∈ recs ∧ (globMatch pat.data (r.get field).data = true ∨
      ∃ c ∈ pat.data, r.get field = String.mk [c]) := by
  have hout : out = filterRecords field pat recs := by
    unfold Database.filter at hf
    rw [hg] at hf
    simp only [okBind, Except.ok.injEq] at hf
    exact hf.symm
  rw [hout]
  exact mem_filterRecords field pat hc recs r

/-- C4 amended witness: a concrete instance where the single stored
record is returned because its one-character name occurs in the
comma-carrying pattern. -/
theorem filter_comma_membership_witness :
    recX ∈ [recX] ↔ recX ∈ [recX] ∧
      (globMatch "x,y".data (recX.get .name).data = true ∨
        ∃ c ∈ "x,y".data, recX.get .name = String.mk [c]) :=
  filter_comma_membership (Database.init "w4" "csv") .name "x,y"
    [("w4.csv", .csvData [categories, recX.values])] [recX] [recX]
    (by decide) (by decide) (by decide) recX

/-- The import write loop traverses the filesystem exactly as the `add`
experiment does, dropping the success flags. -/
lemma writeAll_addAll (db : Database) :
    ∀ (rs : List Record) (fs fs2 : FS) (b : Bool),
      addAll db rs fs = .ok (fs2, b) → writeAll db rs fs = .ok fs2 := by
  intro rs
  induction rs with
  | nil =>
    intro fs fs2 b h
    simp only [addAll, Except.ok.injEq, Prod.mk.injEq] at h
    rw [writeAll, h.1]
  | cons r rs ih =>
    intro fs fs2 b h
    cases ha : db.add r fs with
    | error e => rw [addAll, ha] at h; simp at h
    | ok pr =>
      obtain ⟨fs1, b1⟩ := pr
      rw [addAll, ha] at h
      simp only [okBind] at h
      cases hr : addAll db rs fs1 with
      | error e => rw [hr] at h; simp at h
      | ok pr2 =>
        obtain ⟨fs3, b2⟩ := pr2
        rw [hr] at h
        simp only [okBind, Except.ok.injEq, Prod.mk.injEq] at h
        show (do
          let (fs4, _) ← formatWrite db.currentFormat r db.dataFile fs
          writeAll db rs fs4) = .ok fs2
        rw [show formatWrite db.currentFormat r db.dataFile fs = db.add r fs from rfl, ha]
        simp only [okBind]
        rw [ih fs1 fs3 b2 hr, h.1]

/-- Parsing an extended row list splits into parsing the prefix and the
appended value rows. -/
lemma parseRows_append (rows : List (List String)) (rs recs : List Record)
    (h : parseRows rows = .ok recs) :
    parseRows (rows ++ rs.map Record.values) = .ok (recs ++ rs) := by
  induction rows generalizing recs with
  | nil =>
    simp only [parseRows, Except.ok.injEq] at h
    subst h
    simp only [List.nil_append]
    exact parseRows_map_values rs
  | cons row rest ih =>
    rw [List.cons_append]
    cases hr : rowToRecord row with
    | error e =>
      simp only [parseRows] at h
      rw [hr] at h
      simp at h
    | ok r =>
      simp only [parseRows] at h ⊢
      rw [hr] at h ⊢
      simp only [okBind] at h ⊢
      cases hrest : parseRows rest with
      | error e => rw [hrest] at h; simp at h
      | ok tail =>
        rw [hrest] at h
        simp only [okBind, Except.ok.injEq] at h
        subst h
        rw [ih tail hrest]
        simp only [okBind, List.cons_append]

/-- A sequence of `add` calls into a database whose current data file
reads back `oldRecs` succeeds and leaves a state reading back `oldRecs`
followed by the added records — also when the data file does not exist
yet (then `oldRecs` is empty). -/
lemma addAll_existing (db : Database) (srcRecs : List Record) (fs : FS)
    (oldRecs : List Record)
    (hcur : db.currentFormat = "csv" ∨ db.currentFormat = "json")
    (hold : Database.getRecords db fs = .ok oldRecs) :
    ∃ fs2, addAll db srcRecs fs = .ok (fs2, true) ∧
      Database.getRecords db fs2 = .ok (oldRecs ++ srcRecs) := by
  rcases hcur with hfmt | hfmt
  · have hold2 : csvGetRecords db.dataFile fs = .ok oldRecs := by
      simpa [Database.getRecords, formatGetRecords, hfmt] using hold
    cases hl : lookupFile db.dataFile fs with
    | none =>
      unfold csvGetRecords at hold2
      rw [hl] at hold2
      simp only [Except.ok.injEq] at hold2
      subst hold2
      simp only [List.nil_append]
      exact addAll_fresh db srcRecs fs (Or.inl hfmt) hl
    | some d =>
      cases d with
      | csvData rows =>
        cases rows with
        | nil =>
          unfold csvGetRecords at hold2
          rw [hl] at hold2
          simp at hold2
        | cons hdr rest =>
          have hparse : parseRows rest = .ok oldRecs := by
            unfold csvGetRecords at hold2
            rw [hl] at hold2
            exact hold2
          obtain ⟨fs2, hadd, hlook⟩ := addAll_csv db hfmt srcRecs (hdr :: rest) fs hl
          refine ⟨fs2, hadd, ?_⟩
          have hlook2 : lookupFile db.dataFile fs2 =
              some (.csvData (hdr :: (rest ++ srcRecs.map Record.values))) := by
            rw [hlook]; simp
          simp only [Database.getRecords, formatGetRecords, hfmt, if_true, csvGetRecords,
            hlook2]
          exact parseRows_append rest srcRecs oldRecs hparse
      | jsonData recs =>
        unfold csvGetRecords at hold2
        rw [hl] at hold2
        simp at hold2
      | mixed =>
        unfold csvGetRecords at hold2
        rw [hl] at hold2
        simp at hold2
  · have hold2 : jsonGetRecords db.dataFile fs = .ok oldRecs := by
      simpa [Database.getRecords, formatGetRecords, hfmt] using hold
    cases hl : lookupFile db.dataFile fs with
    | none =>
      unfold jsonGetRecords at hold2
      rw [hl] at hold2
      simp only [Except.ok.injEq] at hold2
      subst hold2
      simp only [List.nil_append]
      exact addAll_fresh db srcRecs fs (Or.inr hfmt) hl
    | some d =>
      cases d with
      | jsonData pre =>
        have hpre : pre = oldRecs := by
          unfold jsonGetRecords at hold2
          rw [hl] at hold2
          simpa using hold2
        subst hpre
        obtain ⟨fs2, hadd, hlook⟩ := addAll_json db hfmt srcRecs pre fs hl
        exact ⟨fs2, hadd, by
          simp [Database.getRecords, formatGetRecords, hfmt, jsonGetRecords, hlook]⟩
      | csvData rows =>
        unfold jsonGetRecords at hold2
        rw [hl] at hold2
        simp at hold2
      | mixed =>
        unfold jsonGetRecords at hold2
        rw [hl] at hold2
        simp at hold2

/-- C5 (amended): `importRecords` takes the source format from the
second dot-separated component of the trimmed path, not from the file's
extension.  When that component is not a registered format name it
reports failure and writes nothing; when the path has no second
component it raises `IndexError`; and when the component is registered —
in any combination of source format and supported current format, with
or without an existing data file — the records read from the source are
each written into the current data file and the call reports success,
after which the data file reads back its previous records followed by
the imported ones. -/
theorem importRecords_second_component (db : Database) (fName : String) (fs : FS) :
    (∀ fmtChars, (splitDots (trimChars fName.data)).get? 1 = some fmtChars →
      isFormat (String.mk fmtChars) = false →
      Database.importRecords db fName fs = .ok (fs, false)) ∧
    ((splitDots (trimChars fName.data)).get? 1 = none →
      Database.importRecords db fName fs = .error .indexError) ∧
    (∀ fmtChars srcRecs oldRecs,
      (splitDots (trimChars fName.data)).get? 1 = some fmtChars →
      isFormat (String.mk fmtChars) = true →
      (db.currentFormat = "csv" ∨ db.currentFormat = "json") →
      formatGetRecords (String.mk fmtChars) fName fs = .ok srcRecs →
      Database.getRecords db fs = .ok oldRecs →
      ∃ fs2, Database.importRecords db fName fs = .ok (fs2, true) ∧
        Database.getRecords db fs2 = .ok (oldRecs ++ srcRecs)) := by
  refine ⟨?_, ?_, ?_⟩
  · intro fmtChars h1 h2
    unfold Database.importRecords
    rw [h1]
    simp only [h2, Bool.false_eq_true, if_false]
  · intro h1
    unfold Database.importRecords
    rw [h1]
  · intro fmtChars srcRecs oldRecs h1 hreg hcur hget hold
    obtain ⟨fs2, haddAll, hread⟩ := addAll_existing db srcRecs fs oldRecs hcur hold
    have hw : writeAll db srcRecs fs = .ok fs2 :=
      writeAll_addAll db srcRecs fs fs2 true haddAll
    refine ⟨fs2, ?_, hread⟩
    unfold Database.importRecords
    rw [h1]
    simp only [hreg, if_true, hget, okBind, hw]

/-- C5 witness: the three amended clauses at concrete inputs — a
multi-dot name with unknown middle component fails, a dotless name
raises, and a cross-format import (a CSV source into a JSON database
that already holds a record) succeeds with the new record appended. -/
theorem importRecords_second_component_witness :
    Database.importRecords (Database.init "w5" "json") "a.b.csv" [] = .ok ([], false) ∧
      Database.importRecords (Database.init "w5" "json") "records" [] =
        .error .indexError ∧
      ∃ fs2, Database.importRecords (Database.init "w5" "json") "src.csv"
          [("w5.json", .jsonData [georgeCarlin]),
           ("src.csv", .csvData [categories, johnDoe.values])] = .ok (fs2, true) ∧
        Database.getRecords (Database.init "w5" "json") fs2 =
          .ok ([georgeCarlin] ++ [johnDoe]) :=
  ⟨(importRecords_second_component (Database.init "w5" "json") "a.b.csv" []).1
      "b".data (by decide) (by decide),
   (importRecords_second_component (Database.init "w5" "json") "records" []).2.1
      (by decide),
   (importRecords_second_component (Database.init "w5" "json") "src.csv"
        [("w5.json", .jsonData [georgeCarlin]),
         ("src.csv", .csvData [categories, johnDoe.values])]).2.2
      "csv".data [johnDoe] [georgeCarlin]
      (by decide) (by decide) (Or.inr rfl) (by decide) (by decide)⟩
